import Mathlib

/-!
# bolt_unix.go: advisory lock, memory mapping and the growable write path

A shallow embedding of `src/bolt_unix.go` (`flock`, `mmap` with the
`db.ops.writeAt` closure it installs, `munmap`).  System calls are
modelled by passing their outcome in as an argument; every function returns
the database handle after the call, what the Go function returned (or the
run-time panic or memory fault that ended it) and the list of system calls it
issued.

Go `int`, `int64` and `time.Duration` are 64-bit two's-complement integers:
they are `Int` here and every arithmetic operation of the source is followed
by `wrap64`.
-/

namespace Bbolt

/-! ## 64-bit integer arithmetic -/

/-- Reduction of an integer to the 64-bit two's-complement range. -/
def wrap64 (x : Int) : Int := (x + 9223372036854775808) % 18446744073709551616 - 9223372036854775808

/-- Go `a + b` on `int` / `int64`. -/
def add64 (a b : Int) : Int := wrap64 (a + b)

/-- Go `a - b` on `int` / `int64`. -/
def sub64 (a b : Int) : Int := wrap64 (a - b)

/-- Go `a * b` on `int` / `int64`. -/
def mul64 (a b : Int) : Int := wrap64 (a * b)

/-- Go `a / b` on `int` for `b ≠ 0`: the quotient truncated toward zero. -/
def div64 (a b : Int) : Int := wrap64 (Int.tdiv a b)

/-! ## Errors and system calls -/

/-- A `syscall.Errno` value. -/
inductive Errno where
  | EWOULDBLOCK
  | ENOSYS
  | EINVAL
  | other (code : Nat)
deriving DecidableEq, Repr

/-- A Go `error` value as produced in `bolt_unix.go`. -/
inductive GoError where
  /-- An errno returned by a system call and passed on unchanged. -/
  | errno (e : Errno)
  /-- The value of `fmt.Errorf("file resize error: %s", err)`. -/
  | fileResize (e : Errno)
  /-- The value of `fmt.Errorf("madvise: %s", err)`. -/
  | madvise (e : Errno)
  /-- The package error `ErrTimeout`. -/
  | ErrTimeout
deriving DecidableEq, Repr

/-- A run-time panic of the Go program. -/
inductive Panic where
  | divideByZero
  | sliceBounds
  | indexOutOfRange
deriving DecidableEq, Repr

/-- How a Go function call ended: it returned a value, it panicked, or the
process was killed by a memory fault (`SIGBUS`) on a mapped page that no part of
the file backs. -/
inductive Outcome (α : Type) where
  | ret (v : α)
  | panic (p : Panic)
  | fault
deriving DecidableEq, Repr

/-- A system call (or library call that blocks) issued by the code. -/
inductive Syscall where
  | Flock (fd : Nat) (how : Nat)
  | Sleep (d : Int)
  | Truncate (size : Int)
  | Msync (off : Int) (len : Int)
  | Mmap (length : Int) (prot : Nat) (flags : Nat)
  | Madvise (length : Nat)
  | Munmap (length : Nat)
deriving DecidableEq, Repr

/-! ## The database handle -/

abbrev Byte := UInt8

/-- The open file `db.file`: its descriptor, the current length of the
underlying file, which `Truncate` sets, and the page size of the memory manager
that maps it (`pageUnit = 0` stands for a granularity of one byte). -/
structure File where
  fd : Nat
  size : Int
  pageUnit : Nat
deriving DecidableEq, Repr

/-- The end of the last page that holds a byte of the file: a mapping of the
file can be touched below this offset, and touching it from there on kills the
process with `SIGBUS`. -/
def backedEnd (f : File) : Int :=
  if f.pageUnit = 0 then f.size
  else (f.size + f.pageUnit - 1) / f.pageUnit * f.pageUnit

/-- The value of `db.ops.writeAt`: whatever the owner put there, or the closure
that `mmap` installs for a writable database. -/
inductive WriteAtImpl where
  | initial
  | growable
deriving DecidableEq, Repr

/-- Modelled from the spec: the `DB` struct declaration is not part of
`bolt_unix.go`; these are the fields that file reads and writes, with the
types their uses there require.  `dataref = none` is the nil slice,
`data = none` the nil pointer and `data = some a` a pointer to the mapped
byte at address `a`.  A mapped slice has capacity equal to its length. -/
structure DB where
  file : File
  pageSize : Int
  readOnly : Bool
  MmapFlags : Nat
  filesz : Int
  datasz : Int
  dataref : Option (List Byte)
  data : Option Nat
  opsWriteAt : WriteAtImpl
deriving DecidableEq, Repr

/-- The bytes of `db.dataref` (none for the nil slice). -/
def DB.bytes (db : DB) : List Byte := db.dataref.getD []

/-! ## The growable write path: the closure `db.ops.writeAt` -/

/-- Line 60: `(int(off) + len(p) + db.pageSize - 1) / db.pageSize * db.pageSize`,
for `db.pageSize ≠ 0`. -/
def targetSize (off : Int) (plen : Nat) (pageSize : Int) : Int :=
  mul64 (div64 (sub64 (add64 (add64 off plen) pageSize) 1) pageSize) pageSize

/-- Go `copy(buf[lo:hi], p)`: the first `min (hi - lo) (len p)` bytes of `p`
replace the bytes of `buf` from position `lo` on. -/
def copyInto (buf : List Byte) (lo hi : Nat) (p : List Byte) : List Byte :=
  buf.take lo ++ p.take (hi - lo) ++ buf.drop (lo + min (hi - lo) p.length)

/-- What a call of the `writeAt` closure leaves behind. -/
structure WriteAtResult where
  db : DB
  out : Outcome (Int × Option GoError)
  calls : List Syscall
deriving DecidableEq, Repr

/-- The closure installed at lines 59-79, run on the current handle.
`truncRes` is what `db.file.Truncate` returns if it is called and `msyncRes`
what `unix.Msync` returns if it is called (`none` is a nil error).  The copy of
line 73 stores into mapped memory: when it stores at least one byte and its last
byte lies at or past `backedEnd` of the file as it is then, the process is killed
(the handle is reported as it was before the copy). -/
def writeAt (db : DB) (p : List Byte) (off : Int)
    (truncRes msyncRes : Option Errno) : WriteAtResult :=
  if db.pageSize = 0 then
    { db := db, out := .panic .divideByZero, calls := [] }
  else
    let sz := targetSize off p.length db.pageSize
    let grow : Bool := decide (sz > db.filesz)
    match grow, truncRes with
    | true, some e =>
      { db := db, out := .ret (0, some (.fileResize e)), calls := [.Truncate sz] }
    | _, _ =>
      let db1 : DB :=
        if grow then { db with file := { db.file with size := sz }, filesz := sz } else db
      let calls1 : List Syscall := if grow then [.Truncate sz] else []
      let hi := add64 off p.length
      if 0 ≤ off ∧ off ≤ hi ∧ hi ≤ db1.bytes.length then
        let n : Int := min (hi - off) p.length
        if 0 < n ∧ backedEnd db1.file < off + n then
          { db := db1, out := .fault, calls := calls1 }
        else
          let db2 : DB :=
            { db1 with
              dataref := db1.dataref.map (fun buf => copyInto buf off.toNat hi.toNat p) }
          match msyncRes with
          | some e =>
            { db := db2, out := .ret (0, some (.errno e)),
              calls := calls1 ++ [.Msync off (hi - off)] }
          | none =>
            { db := db2, out := .ret (p.length, none),
              calls := calls1 ++ [.Msync off (hi - off)] }
      else
        { db := db1, out := .panic .sliceBounds, calls := calls1 }

/-- The handle after lines 60-72 of a call that gets past them or returns
there: grown when the target exceeds the tracked size and `Truncate` succeeds,
as it was otherwise. -/
def afterResize (db : DB) (p : List Byte) (off : Int) (truncRes : Option Errno) : DB :=
  if db.pageSize ≠ 0 ∧ targetSize off p.length db.pageSize > db.filesz ∧ truncRes = none then
    { db with file := { db.file with size := targetSize off p.length db.pageSize },
              filesz := targetSize off p.length db.pageSize }
  else db

/-- Lines 73-78 on the handle `db1` that the resize step left, after the system
calls `calls1`: the bounds check of the slice expression, the copy and the
msync, as in `writeAt`. -/
def copyAndSync (db1 : DB) (p : List Byte) (off : Int) (msyncRes : Option Errno)
    (calls1 : List Syscall) : WriteAtResult :=
  let hi := add64 off p.length
  if 0 ≤ off ∧ off ≤ hi ∧ hi ≤ db1.bytes.length then
    let n : Int := min (hi - off) p.length
    if 0 < n ∧ backedEnd db1.file < off + n then
      { db := db1, out := .fault, calls := calls1 }
    else
      let db2 : DB :=
        { db1 with dataref := db1.dataref.map (fun buf => copyInto buf off.toNat hi.toNat p) }
      match msyncRes with
      | some e =>
        { db := db2, out := .ret (0, some (.errno e)),
          calls := calls1 ++ [.Msync off (hi - off)] }
      | none =>
        { db := db2, out := .ret (p.length, none),
          calls := calls1 ++ [.Msync off (hi - off)] }
  else
    { db := db1, out := .panic .sliceBounds, calls := calls1 }

/-- A sequence of calls of the closure is a list of these: the arguments of a
call and what the system calls it may issue return. -/
structure WriteCall where
  p : List Byte
  off : Int
  truncRes : Option Errno
  msyncRes : Option Errno
deriving DecidableEq, Repr

/-- The handle after a sequence of `writeAt` calls, each run on the handle the
previous one left (a call that panics or faults leaves the handle as it was
then). -/
def runWrites (db : DB) (cs : List WriteCall) : DB :=
  cs.foldl (fun d c => (writeAt d c.p c.off c.truncRes c.msyncRes).db) db

/-! ## mmap and munmap -/

def PROT_READ : Nat := 1
def PROT_WRITE : Nat := 2
def MAP_SHARED : Nat := 1

/-- What the kernel answers to an `mmap` request for a positive length: an
errno, or the address of the new region and the file content it shows. -/
inductive KernelMmap where
  | fail (e : Errno)
  | ok (addr : Nat) (content : List Byte)
deriving DecidableEq, Repr

/-- The library call `unix.Mmap(fd, 0, length, prot, flags)` of
`golang.org/x/sys/unix`: a length that is not positive is refused with
`EINVAL` before any system call, and a successful call returns a slice of
exactly `length` bytes (bytes past the content read as zero). -/
def unixMmap (length : Int) (kern : KernelMmap) : Except Errno (Nat × List Byte) :=
  if length ≤ 0 then .error .EINVAL
  else
    match kern with
    | .fail e => .error e
    | .ok addr content =>
      .ok (addr, (List.range length.toNat).map (fun i => content.getD i 0))

/-- What a call of `mmap` leaves behind. -/
structure MmapResult where
  db : DB
  out : Outcome (Option GoError)
  calls : List Syscall
deriving DecidableEq, Repr

/-- Lines 53-99.  `kern` is the kernel's answer to the mapping request and
`adviseRes` what `unix.Madvise` returns if it is called. -/
def mmap (db : DB) (sz : Int) (kern : KernelMmap) (adviseRes : Option Errno) : MmapResult :=
  let prot : Nat := if db.readOnly then PROT_READ else PROT_READ ||| PROT_WRITE
  let db1 : DB := if db.readOnly then db else { db with opsWriteAt := .growable }
  let mapCalls : List Syscall :=
    if sz ≤ 0 then [] else [.Mmap sz prot (MAP_SHARED ||| db.MmapFlags)]
  match unixMmap sz kern with
  | .error e => { db := db1, out := .ret (some (.errno e)), calls := mapCalls }
  | .ok (addr, b) =>
    let calls2 := mapCalls ++ [.Madvise b.length]
    let advFailure : Option Errno :=
      match adviseRes with
      | some e => if e ≠ .ENOSYS then some e else none
      | none => none
    match advFailure with
    | some e => { db := db1, out := .ret (some (.madvise e)), calls := calls2 }
    | none =>
      let db2 : DB := { db1 with dataref := some b }
      match b with
      | [] => { db := db2, out := .panic .indexOutOfRange, calls := calls2 }
      | _ :: _ =>
        { db := { db2 with data := some addr, datasz := sz }, out := .ret none, calls := calls2 }

/-- What a call of `munmap` leaves behind. -/
structure MunmapResult where
  db : DB
  err : Option GoError
  calls : List Syscall
deriving DecidableEq, Repr

/-- Lines 102-114.  `unmapRes` is what `unix.Munmap` returns if it is called. -/
def munmap (db : DB) (unmapRes : Option Errno) : MunmapResult :=
  match db.dataref with
  | none => { db := db, err := none, calls := [] }
  | some b =>
    { db := { db with dataref := none, data := none, datasz := 0 },
      err := unmapRes.map .errno,
      calls := [.Munmap b.length] }

/-- One call on the handle, with the outcomes of the system calls it may issue. -/
inductive Op where
  | mmap (sz : Int) (kern : KernelMmap) (adviseRes : Option Errno)
  | munmap (unmapRes : Option Errno)
  | writeAt (p : List Byte) (off : Int) (truncRes msyncRes : Option Errno)
deriving DecidableEq, Repr

/-- The handle after one call. -/
def step (db : DB) : Op → DB
  | .mmap sz kern adviseRes => (mmap db sz kern adviseRes).db
  | .munmap unmapRes => (munmap db unmapRes).db
  | .writeAt p off truncRes msyncRes => (writeAt db p off truncRes msyncRes).db

/-- The handle after a sequence of calls. -/
def run (db : DB) (ops : List Op) : DB := ops.foldl step db

/-- Every `mmap` call of the sequence asks for at most the file size tracked at
the time of the call. -/
def mapsWithinFile : DB → List Op → Bool
  | _, [] => true
  | db, op :: ops =>
    (match op with
      | .mmap sz _ _ => decide (sz ≤ db.filesz)
      | _ => true) && mapsWithinFile (step db op) ops

/-! ## flock -/

def LOCK_SH : Nat := 1
def LOCK_EX : Nat := 2
def LOCK_NB : Nat := 4

/-- `time.Duration` of `a - b` for two clock readings: the difference,
saturated to the 64-bit range (`Time.Sub`). -/
def timeSub (a b : Int) : Int :=
  max (-9223372036854775808) (min (a - b) 9223372036854775807)

/-- The surroundings of a `flock` call: what the `i`-th call of
`syscall.Flock` returns (`none` is success), how long it takes, and how long
the `i`-th `time.Sleep` really lasts (counting from 0, in nanoseconds). -/
structure LockEnv where
  attempt : Nat → Option Errno
  attemptDur : Nat → Int
  sleepDur : Nat → Int

/-- What a returning call of `flock` leaves behind: the error returned, the
system calls issued in order, and the clock reading at the return. -/
structure FlockResult where
  err : Option GoError
  calls : List Syscall
  finish : Int
deriving DecidableEq, Repr

/-- The loop of lines 28-44, from the `i`-th attempt on at clock reading `now`;
`retry` is the constant `flockRetryTimeout`, which `bolt_unix.go` uses but
does not declare.  `none` when `fuel` iterations were not enough to return. -/
def flockLoop (env : LockEnv) (fd how : Nat) (timeout retry t : Int) :
    Nat → Nat → Int → List Syscall → Option FlockResult
  | 0, _, _, _ => none
  | fuel + 1, i, now, calls =>
    let now1 := now + env.attemptDur i
    let calls1 := calls ++ [.Flock fd how]
    match env.attempt i with
    | none => some { err := none, calls := calls1, finish := now1 }
    | some e =>
      if e ≠ .EWOULDBLOCK then
        some { err := some (.errno e), calls := calls1, finish := now1 }
      else if timeout ≠ 0 ∧ timeSub now1 t > sub64 timeout retry then
        some { err := some .ErrTimeout, calls := calls1, finish := now1 }
      else
        flockLoop env fd how timeout retry t fuel (i + 1) (now1 + env.sleepDur i)
          (calls1 ++ [.Sleep retry])

/-- Lines 22-27: the operation passed to `syscall.Flock`. -/
def lockFlag (exclusive : Bool) : Nat :=
  if exclusive then LOCK_NB ||| LOCK_EX else LOCK_NB ||| LOCK_SH

/-- Lines 16-45, called at clock reading `start`.  When `timeout` is zero `t`
keeps its zero value, which the loop never reads. -/
def flock (db : DB) (exclusive : Bool) (timeout retry : Int) (env : LockEnv) (start : Int)
    (fuel : Nat) : Option FlockResult :=
  let t : Int := if timeout ≠ 0 then start else 0
  flockLoop env db.file.fd (lockFlag exclusive) timeout retry t fuel 0 start []

/-- The system calls of `n` failed attempts, each followed by a sleep. -/
def retryPrefix (fd how : Nat) (retry : Int) : Nat → List Syscall
  | 0 => []
  | n + 1 => retryPrefix fd how retry n ++ [.Flock fd how, .Sleep retry]

/-- The system calls of `n` failed attempts, each followed by a sleep, and one
more attempt. -/
def retryCalls (fd how : Nat) (retry : Int) (n : Nat) : List Syscall :=
  retryPrefix fd how retry n ++ [.Flock fd how]

/-- The clock reading right before the `i`-th attempt of a call that started at
`start` and is still retrying then. -/
def clockBeforeAttempt (env : LockEnv) (start : Int) : Nat → Int
  | 0 => start
  | i + 1 => clockBeforeAttempt env start i + env.attemptDur i + env.sleepDur i

/-- The clock reading right after the `i`-th attempt, when line 38 reads it. -/
def clockAfterAttempt (env : LockEnv) (start : Int) (i : Nat) : Int :=
  clockBeforeAttempt env start i + env.attemptDur i

/-- The check of line 38 fires after the `i`-th attempt. -/
def timedOutAfter (env : LockEnv) (timeout retry start : Int) (i : Nat) : Prop :=
  timeout ≠ 0 ∧ timeSub (clockAfterAttempt env start i) start > sub64 timeout retry

/-- A lock that stays contended, with a clock on which an attempt takes no time
and every sleep lasts exactly `retry`. -/
def contendedEnv (retry : Int) : LockEnv :=
  { attempt := fun _ => some .EWOULDBLOCK, attemptDur := fun _ => 0, sleepDur := fun _ => retry }

/-- A lock that reports contention `n` times and then answers `final`, on the
clock of `contendedEnv`. -/
def releasedEnv (n : Nat) (final : Option Errno) (retry : Int) : LockEnv :=
  { attempt := fun i => if i < n then some .EWOULDBLOCK else final,
    attemptDur := fun _ => 0, sleepDur := fun _ => retry }

/-- The three mapping fields are set or cleared together: `db.dataref` is nil
exactly when `db.datasz` is 0, exactly when `db.data` is nil. -/
def mappingFieldsAgree (db : DB) : Prop :=
  (db.dataref = none ↔ db.datasz = 0) ∧ (db.datasz = 0 ↔ db.data = none)

/-- While a mapping is held the tracked file size is at least the mapped size. -/
def fileCoversMapping (db : DB) : Prop :=
  db.dataref ≠ none → db.datasz ≤ db.filesz

/-! ## Handles used in the examples -/

/-- The handle of the examples: page size 4096, a 4096-byte file mapped whole. -/
def exampleDB : DB :=
  { file := { fd := 3, size := 4096, pageUnit := 4096 }, pageSize := 4096, readOnly := false, MmapFlags := 0,
    filesz := 4096, datasz := 4096, dataref := some (List.replicate 4096 0), data := some 65536,
    opsWriteAt := .growable }

/-- A handle right after the file was created: page size 4096, an empty file,
nothing mapped. -/
def freshDB : DB :=
  { file := { fd := 3, size := 0, pageUnit := 4096 }, pageSize := 4096, readOnly := false, MmapFlags := 0,
    filesz := 0, datasz := 0, dataref := none, data := none, opsWriteAt := .initial }

/-- A handle whose file of 5000 bytes is not a whole number of 4096-byte pages. -/
def unalignedDB : DB :=
  { exampleDB with file := { fd := 3, size := 5000, pageUnit := 4096 }, filesz := 5000 }

/-- A handle that maps only the first 8 bytes of its 4096-byte file. -/
def shortMapDB : DB :=
  { file := { fd := 3, size := 4096, pageUnit := 4096 }, pageSize := 4096, readOnly := false, MmapFlags := 0,
    filesz := 4096, datasz := 8, dataref := some [0, 0, 0, 0, 0, 0, 0, 0], data := some 65536,
    opsWriteAt := .growable }

/-- A handle on an empty file of which 4096 bytes are mapped already. -/
def emptyFileDB : DB :=
  { exampleDB with file := { fd := 3, size := 0, pageUnit := 4096 }, filesz := 0 }

/-- A handle whose tracked size of 8192 bytes is ahead of its file of 4096
bytes; 8192 bytes are mapped. -/
def staleDB : DB :=
  { file := { fd := 3, size := 4096, pageUnit := 4096 }, pageSize := 4096, readOnly := false,
    MmapFlags := 0, filesz := 8192, datasz := 8192, dataref := some (List.replicate 8192 0),
    data := some 65536, opsWriteAt := .growable }

/-- A handle on an empty file of which 8 bytes are mapped already. -/
def growDB : DB :=
  { file := { fd := 3, size := 0, pageUnit := 4096 }, pageSize := 4096, readOnly := false,
    MmapFlags := 0, filesz := 0, datasz := 8, dataref := some [0, 0, 0, 0, 0, 0, 0, 0],
    data := some 65536, opsWriteAt := .growable }

/-- The handle `growDB` with a page size so large that line 60 wraps around. -/
def hugePageDB : DB := { growDB with pageSize := 9223372036854775807 }

/-! ## Arithmetic of the target size -/

theorem wrap64_of_range (x : Int) (h1 : -9223372036854775808 ≤ x) (h2 : x < 9223372036854775808) :
    wrap64 x = x := by
  unfold wrap64; omega

theorem wrap64_sum (off n ps : Int) :
    sub64 (add64 (add64 off n) ps) 1 = wrap64 (off + n + ps - 1) := by
  unfold sub64 add64 wrap64; omega

/-- Bounds on the truncated quotient times the divisor. -/
theorem tdiv_mul_bounds (x ps : Int) (hps : 0 < ps) :
    (0 ≤ x → 0 ≤ Int.tdiv x ps ∧ Int.tdiv x ps ≤ Int.tdiv x ps * ps ∧ Int.tdiv x ps * ps ≤ x ∧
      x < Int.tdiv x ps * ps + ps) ∧
    (x < 0 → Int.tdiv x ps ≤ 0 ∧ Int.tdiv x ps * ps ≤ Int.tdiv x ps ∧ x ≤ Int.tdiv x ps * ps) := by
  have hdm := Int.tdiv_add_tmod' x ps
  constructor
  · intro hx
    have h1 : 0 ≤ Int.tdiv x ps := Int.tdiv_nonneg hx (le_of_lt hps)
    have h2 : 0 ≤ Int.tmod x ps := Int.tmod_nonneg ps hx
    have h3 : Int.tmod x ps < ps := Int.tmod_lt_of_pos x hps
    refine ⟨h1, ?_, by omega, by omega⟩
    nlinarith
  · intro hx
    have h1 : Int.tdiv x ps ≤ 0 := by
      have := Int.tdiv_nonneg (a := -x) (b := ps) (by omega) (le_of_lt hps)
      rw [Int.neg_tdiv] at this
      omega
    have h2 : Int.tmod x ps ≤ 0 := by
      have := Int.tmod_nonneg (a := -x) ps (by omega)
      rw [Int.tmod_def, Int.neg_tdiv] at this
      have h3 := Int.tmod_def x ps
      have h4 : ps * -(Int.tdiv x ps) = -(ps * Int.tdiv x ps) := by ring
      omega
    refine ⟨h1, ?_, by omega⟩
    nlinarith

/-- The quotient of line 60 times the page size, without wrap-around, when the
sum is in range. -/
theorem targetSize_eq (off : Int) (n : Nat) (ps : Int) (hps : 0 < ps)
    (hlo : -9223372036854775808 ≤ off + n + ps - 1)
    (hhi : off + n + ps - 1 < 9223372036854775808) :
    targetSize off n ps = Int.tdiv (off + n + ps - 1) ps * ps := by
  unfold targetSize
  rw [wrap64_sum, wrap64_of_range _ hlo hhi]
  obtain ⟨hpos, hneg⟩ := tdiv_mul_bounds (off + n + ps - 1) ps hps
  unfold mul64 div64
  by_cases hx : 0 ≤ off + n + ps - 1
  · obtain ⟨a, b, c, _⟩ := hpos hx
    rw [wrap64_of_range (Int.tdiv _ _) (by omega) (by omega), wrap64_of_range _ (by omega) (by omega)]
  · obtain ⟨a, b, c⟩ := hneg (by omega)
    rw [wrap64_of_range (Int.tdiv _ _) (by omega) (by omega), wrap64_of_range _ (by omega) (by omega)]

/-- In range, the target size is a multiple of the page size that is at least
the end of the write. -/
theorem targetSize_covers (off : Int) (n : Nat) (ps : Int) (hps : 0 < ps)
    (hlo : -9223372036854775808 ≤ off + n + ps - 1)
    (hhi : off + n + ps - 1 < 9223372036854775808) :
    ps ∣ targetSize off n ps ∧ off + n ≤ targetSize off n ps := by
  rw [targetSize_eq off n ps hps hlo hhi]
  obtain ⟨hpos, hneg⟩ := tdiv_mul_bounds (off + n + ps - 1) ps hps
  refine ⟨Dvd.intro_left _ rfl, ?_⟩
  by_cases hx : 0 ≤ off + n + ps - 1
  · obtain ⟨a, b, c, d⟩ := hpos hx
    omega
  · obtain ⟨a, b, c⟩ := hneg (by omega)
    omega

/-- For a write that starts at a non-negative offset the target size is the
least multiple of the page size that is at least the end of the write. -/
theorem targetSize_least (off : Int) (n : Nat) (ps : Int) (hps : 0 < ps) (hoff : 0 ≤ off)
    (hhi : off + n + ps - 1 < 9223372036854775808) (m : Int) (hm : ps ∣ m)
    (hle : off + n ≤ m) : targetSize off n ps ≤ m := by
  rw [targetSize_eq off n ps hps (by omega) hhi]
  obtain ⟨hpos, _⟩ := tdiv_mul_bounds (off + n + ps - 1) ps hps
  obtain ⟨a, b, c, d⟩ := hpos (by omega)
  obtain ⟨k, rfl⟩ := hm
  have hlt : Int.tdiv (off + n + ps - 1) ps * ps < (k + 1) * ps := by
    have : (k + 1) * ps = ps * k + ps := by ring
    omega
  have hq : Int.tdiv (off + n + ps - 1) ps < k + 1 := lt_of_mul_lt_mul_right hlt (le_of_lt hps)
  have : Int.tdiv (off + n + ps - 1) ps * ps ≤ k * ps :=
    mul_le_mul_of_nonneg_right (by omega) (le_of_lt hps)
  rw [mul_comm ps k]
  exact this


/-! ## Effect of one `writeAt` call on the handle -/

/-- A call leaves the handle as the resize step left it, but for the bytes the
copy stored. -/
theorem writeAt_db (db : DB) (p : List Byte) (off : Int) (tr ms : Option Errno) :
    (writeAt db p off tr ms).db = afterResize db p off tr ∨
    (writeAt db p off tr ms).db =
      { afterResize db p off tr with
        dataref := (afterResize db p off tr).dataref.map
          (fun buf => copyInto buf off.toNat (add64 off p.length).toNat p) } := by
  unfold writeAt afterResize
  by_cases hps : db.pageSize = 0
  · simp [hps]
  · by_cases hg : targetSize off p.length db.pageSize > db.filesz
    · cases tr with
      | some e => simp [hps, hg]
      | none =>
        simp only [hps, hg, if_false, decide_True, ne_eq, not_false_eq_true, and_self, if_true]
        split_ifs <;> (try cases ms) <;> simp
    · have hcond : ¬ (db.pageSize ≠ 0 ∧ targetSize off p.length db.pageSize > db.filesz ∧
          tr = none) := fun h => hg h.2.1
      rw [if_neg hcond]
      cases tr <;> simp only [hps, hg, if_false, decide_False] <;> split_ifs <;>
        (try cases ms) <;> first | contradiction | simp

theorem afterResize_fields (db : DB) (p : List Byte) (off : Int) (tr : Option Errno) :
    (afterResize db p off tr).pageSize = db.pageSize ∧
    (afterResize db p off tr).datasz = db.datasz ∧
    (afterResize db p off tr).data = db.data ∧
    (afterResize db p off tr).dataref = db.dataref ∧
    (afterResize db p off tr).file.pageUnit = db.file.pageUnit := by
  unfold afterResize
  split_ifs <;> simp

theorem writeAt_filesz (db : DB) (p : List Byte) (off : Int) (tr ms : Option Errno) :
    (writeAt db p off tr ms).db.filesz =
      if db.pageSize ≠ 0 ∧ targetSize off p.length db.pageSize > db.filesz ∧ tr = none
      then targetSize off p.length db.pageSize else db.filesz := by
  have h : (writeAt db p off tr ms).db.filesz = (afterResize db p off tr).filesz := by
    rcases writeAt_db db p off tr ms with h | h <;> rw [h]
  rw [h]
  unfold afterResize
  split_ifs <;> rfl

theorem writeAt_fileSize (db : DB) (p : List Byte) (off : Int) (tr ms : Option Errno) :
    (writeAt db p off tr ms).db.file.size =
      if db.pageSize ≠ 0 ∧ targetSize off p.length db.pageSize > db.filesz ∧ tr = none
      then targetSize off p.length db.pageSize else db.file.size := by
  have h : (writeAt db p off tr ms).db.file = (afterResize db p off tr).file := by
    rcases writeAt_db db p off tr ms with h | h <;> rw [h]
  rw [h]
  unfold afterResize
  split_ifs <;> rfl

theorem writeAt_fields (db : DB) (p : List Byte) (off : Int) (tr ms : Option Errno) :
    (writeAt db p off tr ms).db.pageSize = db.pageSize ∧
    (writeAt db p off tr ms).db.datasz = db.datasz ∧
    (writeAt db p off tr ms).db.data = db.data ∧
    ((writeAt db p off tr ms).db.dataref = none ↔ db.dataref = none) := by
  obtain ⟨h1, h2, h3, h4, _⟩ := afterResize_fields db p off tr
  rcases writeAt_db db p off tr ms with h | h <;> rw [h]
  · exact ⟨h1, h2, h3, by rw [h4]⟩
  · refine ⟨h1, h2, h3, ?_⟩
    rw [h4]
    cases db.dataref <;> simp

/-! ## The copy into the mapped buffer -/

theorem copyInto_length (buf : List Byte) (lo hi : Nat) (p : List Byte)
    (h1 : lo ≤ hi) (h2 : hi ≤ buf.length) (h3 : p.length = hi - lo) :
    (copyInto buf lo hi p).length = buf.length := by
  simp [copyInto]; omega

theorem copyInto_inside (buf : List Byte) (lo hi : Nat) (p : List Byte)
    (h1 : lo ≤ hi) (h2 : hi ≤ buf.length) (h3 : p.length = hi - lo) (i : Nat)
    (hi' : i < p.length) : (copyInto buf lo hi p)[lo + i]? = p[i]? := by
  unfold copyInto
  have e1 : (List.take lo buf).length = lo := by simp; omega
  have e2 : List.take (hi - lo) p = p := List.take_of_length_le (by omega)
  rw [List.append_assoc, List.getElem?_append_right (by omega), e1, e2,
    List.getElem?_append_left (by omega)]
  congr 1
  omega

theorem copyInto_outside (buf : List Byte) (lo hi : Nat) (p : List Byte)
    (h1 : lo ≤ hi) (h2 : hi ≤ buf.length) (h3 : p.length = hi - lo) (j : Nat)
    (hj : j < lo ∨ hi ≤ j) : (copyInto buf lo hi p)[j]? = buf[j]? := by
  unfold copyInto
  have e1 : (List.take lo buf).length = lo := by simp; omega
  have e2 : List.take (hi - lo) p = p := List.take_of_length_le (by omega)
  rw [e2]
  rcases hj with hj | hj
  · rw [List.append_assoc, List.getElem?_append_left (by omega)]
    simp [List.getElem?_take, hj]
  · rw [List.getElem?_append_right (by simp; omega)]
    rw [List.getElem?_drop]
    congr 1
    simp
    omega

/-! ## The growable write path: claims -/

/-- C1: for a positive page size, a non-negative offset and a sum
`off + len(p) + pageSize - 1` that fits in an `int`, the size computed at line 60
equals `(off + len(p) + pageSize - 1) / pageSize * pageSize` and is the least
multiple of the page size that is at least `off + len(p)`; when it exceeds the
tracked `db.filesz` and `Truncate` succeeds, `Truncate` is called with it, the
file has exactly that length afterwards and `db.filesz` equals it. -/
theorem writeAt_target_is_least_page_multiple (db : DB) (p : List Byte) (off : Int)
    (truncRes msyncRes : Option Errno) (hps : 0 < db.pageSize) (hoff : 0 ≤ off)
    (hfit : off + p.length + db.pageSize - 1 < 9223372036854775808) :
    (targetSize off p.length db.pageSize
        = (off + p.length + db.pageSize - 1) / db.pageSize * db.pageSize ∧
      db.pageSize ∣ targetSize off p.length db.pageSize ∧
      off + p.length ≤ targetSize off p.length db.pageSize ∧
      ∀ m : Int, db.pageSize ∣ m → off + p.length ≤ m →
        targetSize off p.length db.pageSize ≤ m) ∧
    (targetSize off p.length db.pageSize > db.filesz → truncRes = none →
      (writeAt db p off truncRes msyncRes).db.filesz = targetSize off p.length db.pageSize ∧
      (writeAt db p off truncRes msyncRes).db.file.size = targetSize off p.length db.pageSize ∧
      Syscall.Truncate (targetSize off p.length db.pageSize)
        ∈ (writeAt db p off truncRes msyncRes).calls) := by
  have hlo : -9223372036854775808 ≤ off + p.length + db.pageSize - 1 := by omega
  obtain ⟨hdvd, hge⟩ := targetSize_covers off p.length db.pageSize hps hlo hfit
  refine ⟨⟨?_, hdvd, hge, fun m hm hle => targetSize_least off p.length db.pageSize hps hoff hfit m hm hle⟩, ?_⟩
  · rw [targetSize_eq off p.length db.pageSize hps hlo hfit,
      Int.tdiv_eq_ediv (by omega) (le_of_lt hps)]
  · intro hgrow htr
    have hne : db.pageSize ≠ 0 := by omega
    refine ⟨?_, ?_, ?_⟩
    · rw [writeAt_filesz]; simp [hne, hgrow, htr]
    · rw [writeAt_fileSize]; simp [hne, hgrow, htr]
    · subst htr
      unfold writeAt
      cases msyncRes <;> simp only [hne, hgrow, if_false, decide_True] <;> (try split_ifs) <;> simp

/-- C1, witness: page size 4096, tracked size 4096, one byte at offset 8192:
the file and the tracked size become 12288. -/
theorem writeAt_target_is_least_page_multiple_witness :
    (writeAt exampleDB [7] 8192 none none).db.filesz = 12288 ∧
    (writeAt exampleDB [7] 8192 none none).db.file.size = 12288 ∧
    targetSize 8192 1 4096 = 12288 :=
  have h := writeAt_target_is_least_page_multiple exampleDB [7] 8192 none none
    (by decide) (by decide) (by decide)
  have ht : targetSize 8192 1 4096 = 12288 := by decide
  ⟨ht ▸ (h.2 (by decide) rfl).1, ht ▸ (h.2 (by decide) rfl).2.1, ht⟩

/-- C4: when the page-aligned target exceeds `db.filesz` and `Truncate` fails
with `e`, `writeAt` returns byte count 0 and the error "file resize error: e",
the handle is left exactly as it was (so `db.filesz` keeps its value and no byte
of `db.dataref` changes), and `Truncate` is the only system call issued. -/
theorem writeAt_resize_failure (db : DB) (p : List Byte) (off : Int) (e : Errno)
    (msyncRes : Option Errno) (hps : db.pageSize ≠ 0)
    (hgrow : targetSize off p.length db.pageSize > db.filesz) :
    (writeAt db p off (some e) msyncRes).out = .ret (0, some (.fileResize e)) ∧
    (writeAt db p off (some e) msyncRes).db.filesz = db.filesz ∧
    (writeAt db p off (some e) msyncRes).db.dataref = db.dataref ∧
    (writeAt db p off (some e) msyncRes).db = db ∧
    (writeAt db p off (some e) msyncRes).calls
      = [.Truncate (targetSize off p.length db.pageSize)] := by
  unfold writeAt
  simp [hps, hgrow]

/-- C4, witness: one byte at offset 8192 on the example handle, the disk full. -/
theorem writeAt_resize_failure_witness :
    (writeAt exampleDB [7] 8192 (some (.other 28)) none).out
      = .ret (0, some (.fileResize (.other 28))) ∧
    (writeAt exampleDB [7] 8192 (some (.other 28)) none).db.filesz = 4096 :=
  have h := writeAt_resize_failure exampleDB [7] 8192 (.other 28) none (by decide) (by decide)
  ⟨h.1, h.2.1⟩

/-- A call that gets past the resize step continues with lines 73-78 on the
handle that step left. -/
theorem writeAt_past_resize (db : DB) (p : List Byte) (off : Int) (tr ms : Option Errno)
    (hps : db.pageSize ≠ 0)
    (htr : targetSize off p.length db.pageSize > db.filesz → tr = none) :
    writeAt db p off tr ms
      = copyAndSync (afterResize db p off tr) p off ms
          (if targetSize off p.length db.pageSize > db.filesz
            then [.Truncate (targetSize off p.length db.pageSize)] else []) := by
  unfold writeAt afterResize copyAndSync
  by_cases hg : targetSize off p.length db.pageSize > db.filesz
  · have := htr hg
    subst this
    simp only [hps, hg, if_false, decide_True, ne_eq, not_false_eq_true, and_self, if_true]
  · have hcond : ¬ (db.pageSize ≠ 0 ∧ targetSize off p.length db.pageSize > db.filesz ∧
        tr = none) := fun h => hg h.2.1
    rw [if_neg hcond]
    cases tr <;> simp only [hps, hg, if_false, decide_False] <;> rfl

theorem backedEnd_ge (f : File) : f.size ≤ backedEnd f := by
  unfold backedEnd
  split_ifs with h
  · exact le_refl _
  · have hu : (0 : Int) < f.pageUnit := by omega
    have h1 := Int.lt_ediv_add_one_mul_self (f.size + f.pageUnit - 1) hu
    have h2 : ((f.size + f.pageUnit - 1) / f.pageUnit + 1) * (f.pageUnit : Int)
        = (f.size + f.pageUnit - 1) / f.pageUnit * f.pageUnit + f.pageUnit := by ring
    omega

/-- Lines 73-78 when the slice is in bounds, the written range lies within the
file and the msync succeeds. -/
theorem copyAndSync_success (db1 : DB) (p : List Byte) (off : Int) (calls1 : List Syscall)
    (hcap : (db1.bytes.length : Int) < 9223372036854775808)
    (hoff : 0 ≤ off) (hlen : off + p.length ≤ db1.bytes.length)
    (hfile : off + p.length ≤ db1.file.size) :
    (copyAndSync db1 p off none calls1).out = .ret (p.length, none) ∧
    (copyAndSync db1 p off none calls1).db.dataref
      = db1.dataref.map (fun buf => copyInto buf off.toNat (off.toNat + p.length) p) := by
  have hhi : add64 off p.length = off + p.length := by
    unfold add64; exact wrap64_of_range _ (by omega) (by omega)
  have hhiNat : (off + (p.length : Int)).toNat = off.toNat + p.length := by omega
  have hb : 0 ≤ off ∧ off ≤ off + (p.length : Int) ∧
      off + (p.length : Int) ≤ (db1.bytes.length : Int) := ⟨hoff, by omega, hlen⟩
  have hge := backedEnd_ge db1.file
  have hnf : ¬ (0 < min (off + (p.length : Int) - off) (p.length : Int) ∧
      backedEnd db1.file < off + min (off + (p.length : Int) - off) (p.length : Int)) := by
    intro h
    have := h.2
    omega
  unfold copyAndSync
  simp only [hhi, hb, and_self, if_true, hnf, if_false, hhiNat]

/-- Lines 73-78 when the slice is in bounds and the last byte to store lies past
the pages of the file: the process is killed. -/
theorem copyAndSync_fault (db1 : DB) (p : List Byte) (off : Int) (ms : Option Errno)
    (calls1 : List Syscall) (hcap : (db1.bytes.length : Int) < 9223372036854775808)
    (hoff : 0 ≤ off) (hlen : off + p.length ≤ db1.bytes.length) (hp : 0 < p.length)
    (hfile : backedEnd db1.file < off + p.length) :
    (copyAndSync db1 p off ms calls1).out = .fault := by
  have hhi : add64 off p.length = off + p.length := by
    unfold add64; exact wrap64_of_range _ (by omega) (by omega)
  have hb : 0 ≤ off ∧ off ≤ off + (p.length : Int) ∧
      off + (p.length : Int) ≤ (db1.bytes.length : Int) := ⟨hoff, by omega, hlen⟩
  have hf : 0 < min (off + (p.length : Int) - off) (p.length : Int) ∧
      backedEnd db1.file < off + min (off + (p.length : Int) - off) (p.length : Int) := by
    constructor <;> omega
  unfold copyAndSync
  simp only [hhi, hb, and_self, if_true, hf]

/-- With a positive page size, a sum that fits and a tracked size that the file
has, the file covers the written range once the resize step is done. -/
theorem afterResize_covers (db : DB) (p : List Byte) (off : Int) (tr : Option Errno)
    (hps : 0 < db.pageSize) (hoff : 0 ≤ off)
    (hfit : off + p.length + db.pageSize - 1 < 9223372036854775808)
    (hback : db.filesz ≤ db.file.size)
    (htr : targetSize off p.length db.pageSize > db.filesz → tr = none) :
    off + p.length ≤ (afterResize db p off tr).file.size := by
  obtain ⟨_, hge⟩ := targetSize_covers off p.length db.pageSize hps (by omega) hfit
  unfold afterResize
  split_ifs with h
  · exact hge
  · have : ¬ targetSize off p.length db.pageSize > db.filesz := by
      intro hg; exact h ⟨by omega, hg, htr hg⟩
    omega

/-- The mapped buffer of `staleDB` has 8192 bytes. -/
theorem staleDB_length : staleDB.bytes.length = 8192 := by
  rw [show staleDB.bytes = List.replicate 8192 0 from rfl, List.length_replicate]

/-- C3, as stated, fails: with the tracked size (8192) ahead of the file (4096
bytes) a one-byte write at offset 4096 into the 8192-byte mapping skips the
resize and stores into a page past the end of the file, which kills the process;
with a page size for which line 60 wraps around a one-byte write at offset 1 on
an empty file does the same; and with a page size of 0 line 60 panics.  In all
three the offset is not negative, the write ends within `db.dataref` and no
system call fails. -/
theorem write_past_end_of_file_faults :
    ((4096 : Int) + ([7] : List Byte).length ≤ staleDB.bytes.length ∧
      (writeAt staleDB [7] 4096 none none).out = .fault) ∧
    ((1 : Int) + ([7] : List Byte).length ≤ hugePageDB.bytes.length ∧
      (writeAt hugePageDB [7] 1 none none).out = .fault) ∧
    ((0 : Int) + ([7] : List Byte).length ≤ ({ growDB with pageSize := 0 } : DB).bytes.length ∧
      (writeAt { growDB with pageSize := 0 } [7] 0 none none).out = .panic .divideByZero) := by
  refine ⟨⟨by rw [staleDB_length]; decide, ?_⟩, ⟨by decide, by decide⟩, ⟨by decide, by decide⟩⟩
  have hkeep : afterResize staleDB [7] 4096 none = staleDB := by
    unfold afterResize
    rw [if_neg (by decide)]
  rw [writeAt_past_resize staleDB [7] 4096 none none (by decide) (fun _ => rfl), hkeep]
  exact copyAndSync_fault staleDB [7] 4096 none _ (by rw [staleDB_length]; decide) (by decide)
    (by rw [staleDB_length]; decide) (by decide) (by decide)

/-- C3, amended: on a handle with a positive page size whose tracked `db.filesz`
does not exceed the length of the file and whose mapped buffer has a length that
is a Go `int`, a `writeAt(p, off)` with `off ≥ 0`, `off + len(p) ≤ len(db.dataref)`
and `off + len(p) + pageSize - 1` fitting in an `int`, in which the resize (if
there is one) and the msync succeed, returns `(len(p), nil)`; afterwards
`db.dataref` has the length it had, holds the bytes of `p` at the positions
`off ..< off + len(p)` and its old bytes at every other position, is nil exactly
when it was nil, and `db.datasz` and `db.data` are unchanged. -/
theorem writeAt_copies_bytes (db : DB) (p : List Byte) (off : Int)
    (truncRes msyncRes : Option Errno) (hps : 0 < db.pageSize)
    (hback : db.filesz ≤ db.file.size)
    (hcap : (db.bytes.length : Int) < 9223372036854775808)
    (hoff : 0 ≤ off) (hlen : off + p.length ≤ db.bytes.length)
    (hfit : off + p.length + db.pageSize - 1 < 9223372036854775808)
    (htr : targetSize off p.length db.pageSize > db.filesz → truncRes = none)
    (hms : msyncRes = none) :
    (writeAt db p off truncRes msyncRes).out = .ret (p.length, none) ∧
    (writeAt db p off truncRes msyncRes).db.bytes.length = db.bytes.length ∧
    (∀ i : Nat, i < p.length →
      (writeAt db p off truncRes msyncRes).db.bytes[off.toNat + i]? = p[i]?) ∧
    (∀ j : Nat, (j < off.toNat ∨ off.toNat + p.length ≤ j) →
      (writeAt db p off truncRes msyncRes).db.bytes[j]? = db.bytes[j]?) ∧
    ((writeAt db p off truncRes msyncRes).db.dataref = none ↔ db.dataref = none) ∧
    (writeAt db p off truncRes msyncRes).db.datasz = db.datasz ∧
    (writeAt db p off truncRes msyncRes).db.data = db.data := by
  subst hms
  obtain ⟨_, hdatasz, hdata, hnil⟩ := writeAt_fields db p off truncRes none
  have hne : db.pageSize ≠ 0 := by omega
  have hdr : (afterResize db p off truncRes).dataref = db.dataref :=
    (afterResize_fields db p off truncRes).2.2.2.1
  have hby : (afterResize db p off truncRes).bytes = db.bytes := by
    unfold DB.bytes; rw [hdr]
  have hcov := afterResize_covers db p off truncRes hps hoff hfit hback htr
  obtain ⟨hout, href⟩ := copyAndSync_success (afterResize db p off truncRes) p off
    (if targetSize off p.length db.pageSize > db.filesz
      then [.Truncate (targetSize off p.length db.pageSize)] else [])
    (by rw [hby]; exact hcap) hoff (by rw [hby]; exact hlen) hcov
  rw [← writeAt_past_resize db p off truncRes none hne htr] at hout href
  rw [hdr] at href
  have hbytes : (writeAt db p off truncRes none).db.bytes
      = if db.dataref = none then []
        else copyInto db.bytes off.toNat (off.toNat + p.length) p := by
    unfold DB.bytes
    rw [href]
    cases db.dataref <;> simp
  have h1 : off.toNat ≤ off.toNat + p.length := by omega
  have h2 : off.toNat + p.length ≤ db.bytes.length := by omega
  have h3 : p.length = off.toNat + p.length - off.toNat := by omega
  by_cases hnone : db.dataref = none
  · have hempty : db.bytes = [] := by simp [DB.bytes, hnone]
    have hp : p.length = 0 := by rw [hempty] at hlen; simp at hlen; omega
    rw [hbytes, if_pos hnone, hempty]
    refine ⟨hout, rfl, fun i hi => ?_, fun j _ => rfl, hnil, hdatasz, hdata⟩
    omega
  · rw [hbytes, if_neg hnone]
    exact ⟨hout, copyInto_length _ _ _ _ h1 h2 h3,
      fun i hi => copyInto_inside _ _ _ _ h1 h2 h3 i hi,
      fun j hj => copyInto_outside _ _ _ _ h1 h2 h3 j hj, hnil, hdatasz, hdata⟩

/-- The mapped buffer of the example handle has 4096 bytes. -/
theorem exampleDB_length : exampleDB.bytes.length = 4096 := by
  rw [show exampleDB.bytes = List.replicate 4096 0 from rfl, List.length_replicate]

/-- The mapped buffer of `emptyFileDB` has 4096 bytes. -/
theorem emptyFileDB_length : emptyFileDB.bytes.length = 4096 := by
  rw [show emptyFileDB.bytes = List.replicate 4096 0 from rfl, List.length_replicate]

/-- C3, amended, witness: ten bytes at offset 0 on an empty file of which 4096
bytes are mapped: the file grows to one page, the call returns 10 and the bytes
read back from the buffer. -/
theorem writeAt_copies_bytes_witness :
    (writeAt emptyFileDB [1, 2, 3, 4, 5, 6, 7, 8, 9, 10] 0 none none).out = .ret (10, none) ∧
    ∀ i : Nat, i < 10 →
      (writeAt emptyFileDB [1, 2, 3, 4, 5, 6, 7, 8, 9, 10] 0 none none).db.bytes[i]?
        = [1, 2, 3, 4, 5, 6, 7, 8, 9, 10][i]? :=
  have h := writeAt_copies_bytes emptyFileDB [1, 2, 3, 4, 5, 6, 7, 8, 9, 10] 0 none none
    (by decide) (by decide) (by rw [emptyFileDB_length]; decide) (by decide)
    (by rw [emptyFileDB_length]; decide) (by decide) (fun _ => rfl) rfl
  ⟨h.1, fun i hi => by simpa using h.2.2.1 i hi⟩

/-! ## Sequences of `writeAt` calls -/

theorem writeAt_filesz_mono (db : DB) (p : List Byte) (off : Int) (tr ms : Option Errno) :
    db.filesz ≤ (writeAt db p off tr ms).db.filesz := by
  rw [writeAt_filesz]
  split_ifs with h
  · exact le_of_lt h.2.1
  · exact le_refl _

theorem runWrites_snoc (db : DB) (cs : List WriteCall) (c : WriteCall) :
    runWrites db (cs ++ [c])
      = (writeAt (runWrites db cs) c.p c.off c.truncRes c.msyncRes).db := by
  simp [runWrites, List.foldl_append]

theorem runWrites_pageSize (db : DB) (cs : List WriteCall) :
    (runWrites db cs).pageSize = db.pageSize := by
  induction cs generalizing db with
  | nil => rfl
  | cons c cs ih =>
    show (runWrites (writeAt db c.p c.off c.truncRes c.msyncRes).db cs).pageSize = _
    rw [ih, (writeAt_fields db c.p c.off c.truncRes c.msyncRes).1]

theorem runWrites_filesz_mono (db : DB) (cs : List WriteCall) :
    db.filesz ≤ (runWrites db cs).filesz := by
  induction cs generalizing db with
  | nil => exact le_refl _
  | cons c cs ih =>
    show _ ≤ (runWrites (writeAt db c.p c.off c.truncRes c.msyncRes).db cs).filesz
    exact le_trans (writeAt_filesz_mono db c.p c.off c.truncRes c.msyncRes) (ih _)

/-- One call whose resize succeeds keeps the tracked size a multiple of the page
size and brings it to the end of the write at least. -/
theorem writeAt_filesz_covers (db : DB) (p : List Byte) (off : Int) (ms : Option Errno)
    (hps : 0 < db.pageSize) (hmul : db.pageSize ∣ db.filesz)
    (hlo : -9223372036854775808 ≤ off)
    (hhi : off + p.length + db.pageSize - 1 < 9223372036854775808) :
    db.pageSize ∣ (writeAt db p off none ms).db.filesz ∧
    off + p.length ≤ (writeAt db p off none ms).db.filesz := by
  obtain ⟨hdvd, hge⟩ := targetSize_covers off p.length db.pageSize hps (by omega) hhi
  rw [writeAt_filesz]
  split_ifs with h
  · exact ⟨hdvd, hge⟩
  · have : ¬ targetSize off p.length db.pageSize > db.filesz := by
      intro hg; exact h ⟨by omega, hg, rfl⟩
    exact ⟨hmul, by omega⟩

theorem runWrites_covers (db : DB) (cs : List WriteCall) (hps : 0 < db.pageSize)
    (hmul : db.pageSize ∣ db.filesz)
    (hcs : ∀ c ∈ cs, -9223372036854775808 ≤ c.off ∧
      c.off + c.p.length + db.pageSize - 1 < 9223372036854775808 ∧ c.truncRes = none) :
    db.pageSize ∣ (runWrites db cs).filesz ∧
    ∀ c ∈ cs, c.off + c.p.length ≤ (runWrites db cs).filesz := by
  induction cs generalizing db with
  | nil => exact ⟨hmul, fun c hc => by cases hc⟩
  | cons c cs ih =>
    obtain ⟨hlo, hhi, htr⟩ := hcs c (List.mem_cons_self _ _)
    have hstep := writeAt_filesz_covers db c.p c.off c.msyncRes hps hmul hlo hhi
    rw [← htr] at hstep
    have hpsEq := (writeAt_fields db c.p c.off c.truncRes c.msyncRes).1
    have ih' := ih (writeAt db c.p c.off c.truncRes c.msyncRes).db (by rw [hpsEq]; exact hps)
      (by rw [hpsEq]; exact hstep.1)
      (fun c' hc' => by rw [hpsEq]; exact hcs c' (List.mem_cons_of_mem _ hc'))
    rw [hpsEq] at ih'
    refine ⟨ih'.1, fun c' hc' => ?_⟩
    rcases List.mem_cons.mp hc' with rfl | hmem
    · exact le_trans hstep.2 (runWrites_filesz_mono _ cs)
    · exact ih'.2 c' hmem

/-- C2, as stated, fails: on a handle with page size 4096 a one-byte write at
offset 0 whose `Truncate` fails leaves the tracked size at 0, below the end of
the write; a write that needs no growth leaves a tracked size of 5000, which is
not a multiple of 4096, as it was; and a one-byte write at offset `2^63 - 1`
wraps around, so that the tracked size stays 0. -/
theorem resize_failure_leaves_filesz_behind :
    (runWrites freshDB [⟨[7], 0, some (.other 28), none⟩]).filesz < 0 + 1 ∧
    ¬ (4096 ∣ (runWrites unalignedDB [⟨[7], 0, none, none⟩]).filesz) ∧
    (runWrites freshDB [⟨[7], 9223372036854775807, none, none⟩]).filesz
      < 9223372036854775807 + 1 := by
  refine ⟨by decide, ?_, by decide⟩
  have h : (runWrites unalignedDB [⟨[7], 0, none, none⟩]).filesz
      = 5000 := by
    simp only [runWrites, List.foldl_cons, List.foldl_nil]
    rw [writeAt_filesz]
    have ht : targetSize 0 1 4096 = 4096 := by decide
    simp only [show ([7] : List Byte).length = 1 from rfl,
      show unalignedDB.pageSize = 4096 from rfl,
      show unalignedDB.filesz = 5000 from rfl, ht]
    decide
  rw [h]
  decide

/-- C2, amended: for any sequence of `writeAt` calls on a handle with a positive
page size, whatever their system calls return, the tracked size never decreases
from one call to the next; and if the tracked size is a multiple of the page
size before the first call, the offsets are `int64` values, the sums
`off + len(p) + pageSize - 1` fit in an `int` and the resizes succeed, then after
every call of the sequence the tracked size is a multiple of the page size and
at least `off + len(p)` for every call so far. -/
theorem filesz_grows_by_pages (db : DB) (cs : List WriteCall) (hps : 0 < db.pageSize) :
    (∀ c' : WriteCall, (runWrites db cs).filesz ≤ (runWrites db (cs ++ [c'])).filesz) ∧
    (db.pageSize ∣ db.filesz →
      (∀ c ∈ cs, -9223372036854775808 ≤ c.off ∧
        c.off + c.p.length + db.pageSize - 1 < 9223372036854775808 ∧ c.truncRes = none) →
      ∀ n : Nat, db.pageSize ∣ (runWrites db (cs.take n)).filesz ∧
        ∀ c ∈ cs.take n, c.off + c.p.length ≤ (runWrites db (cs.take n)).filesz) := by
  refine ⟨fun c' => ?_, fun hmul hcs n => ?_⟩
  · rw [runWrites_snoc]
    exact writeAt_filesz_mono _ _ _ _ _
  · exact runWrites_covers db (cs.take n) hps hmul
      (fun c hc => hcs c (List.mem_of_mem_take hc))

/-- C2, amended, witness: on an empty file of which 8 bytes are mapped, a write
of one byte at offset 0 grows the file to one page and returns, a write of two
bytes at offset 2 returns without growth, and a third write, whose resize
fails, leaves the tracked size where it was. -/
theorem filesz_grows_by_pages_witness :
    ((runWrites growDB [⟨[7], 0, none, none⟩, ⟨[7, 7], 2, none, none⟩]).filesz
      ≤ (runWrites growDB ([⟨[7], 0, none, none⟩, ⟨[7, 7], 2, none, none⟩]
          ++ [⟨[7], 8192, some (.other 28), none⟩])).filesz) ∧
    ((4096 : Int) ∣ (runWrites growDB
      ([⟨[7], 0, none, none⟩, ⟨[7, 7], 2, none, none⟩].take 2)).filesz) ∧
    (∀ c ∈ ([⟨[7], 0, none, none⟩, ⟨[7, 7], 2, none, none⟩] : List WriteCall).take 2,
      c.off + c.p.length ≤ (runWrites growDB
        ([⟨[7], 0, none, none⟩, ⟨[7, 7], 2, none, none⟩].take 2)).filesz) ∧
    (runWrites growDB [⟨[7], 0, none, none⟩, ⟨[7, 7], 2, none, none⟩]).filesz = 4096 ∧
    (writeAt growDB [7] 0 none none).out = .ret (1, none) :=
  have h := filesz_grows_by_pages growDB [⟨[7], 0, none, none⟩, ⟨[7, 7], 2, none, none⟩]
    (by decide)
  have h2 := h.2 (by decide) (by decide) 2
  ⟨h.1 ⟨[7], 8192, some (.other 28), none⟩, h2.1, h2.2, by decide, by decide⟩

/-! ## mmap and munmap: effect on the handle -/

/-- The slice a successful `unix.Mmap` returns is not empty. -/
theorem unixMmap_ok (sz : Int) (kern : KernelMmap) (addr : Nat) (b : List Byte)
    (h : unixMmap sz kern = .ok (addr, b)) :
    0 < sz ∧ b.length = sz.toNat ∧ ∃ x xs, b = x :: xs := by
  unfold unixMmap at h
  split_ifs at h with hsz
  cases kern with
  | fail e => simp at h
  | ok a content =>
    simp only [Except.ok.injEq, Prod.mk.injEq] at h
    obtain ⟨_, rfl⟩ := h
    have hlen : ((List.range sz.toNat).map (fun i => content.getD i 0)).length = sz.toNat := by
      simp
    refine ⟨by omega, hlen, ?_⟩
    cases hb : (List.range sz.toNat).map (fun i => content.getD i 0) with
    | nil => rw [hb] at hlen; simp at hlen; omega
    | cons x xs => exact ⟨x, xs, rfl⟩

/-- A call of `mmap` either leaves the mapping fields as they were and returns
an error, or records a non-empty region of the requested positive size and
returns nil; it never changes the tracked file size or the page size. -/
theorem mmap_cases (db : DB) (sz : Int) (kern : KernelMmap) (adv : Option Errno) :
    (mmap db sz kern adv).db.filesz = db.filesz ∧
    (mmap db sz kern adv).db.pageSize = db.pageSize ∧
    (((mmap db sz kern adv).db.dataref = db.dataref ∧
      (mmap db sz kern adv).db.data = db.data ∧
      (mmap db sz kern adv).db.datasz = db.datasz ∧
      ∃ e, (mmap db sz kern adv).out = .ret (some e)) ∨
     (0 < sz ∧ (∃ x xs, (mmap db sz kern adv).db.dataref = some (x :: xs)) ∧
      (∃ a, (mmap db sz kern adv).db.data = some a) ∧
      (mmap db sz kern adv).db.datasz = sz ∧
      (mmap db sz kern adv).out = .ret none)) := by
  unfold mmap
  cases hm : unixMmap sz kern with
  | error e => by_cases hro : db.readOnly <;> simp [hro]
  | ok v =>
    obtain ⟨addr, b⟩ := v
    obtain ⟨hsz, _, x, xs, rfl⟩ := unixMmap_ok sz kern addr b hm
    by_cases hro : db.readOnly <;> rcases adv with _ | e
    all_goals first
      | (by_cases he : e = .ENOSYS <;> simp [hro, he, hsz])
      | simp [hro, hsz]

/-- A successful mapping whose advisory fails with anything but `ENOSYS`: the
error is returned and the mapping fields are not touched. -/
theorem mmap_advise_failure (db : DB) (sz : Int) (kern : KernelMmap) (addr : Nat)
    (b : List Byte) (e : Errno) (hmap : unixMmap sz kern = .ok (addr, b)) (he : e ≠ .ENOSYS) :
    (mmap db sz kern (some e)).out = .ret (some (.madvise e)) ∧
    (mmap db sz kern (some e)).db.dataref = db.dataref ∧
    (mmap db sz kern (some e)).db.data = db.data ∧
    (mmap db sz kern (some e)).db.datasz = db.datasz := by
  unfold mmap
  rw [hmap]
  by_cases hro : db.readOnly <;> simp [hro, he]

/-- A successful mapping whose advisory succeeds or is not implemented: the
region is recorded. -/
theorem mmap_success (db : DB) (sz : Int) (kern : KernelMmap) (addr : Nat)
    (b : List Byte) (adv : Option Errno) (hmap : unixMmap sz kern = .ok (addr, b))
    (hadv : adv = none ∨ adv = some .ENOSYS) :
    (mmap db sz kern adv).out = .ret none ∧
    (mmap db sz kern adv).db.dataref = some b ∧
    (mmap db sz kern adv).db.data = some addr ∧
    (mmap db sz kern adv).db.datasz = sz ∧
    (mmap db sz kern adv).db.filesz = db.filesz := by
  obtain ⟨_, _, x, xs, rfl⟩ := unixMmap_ok sz kern addr b hmap
  unfold mmap
  rw [hmap]
  rcases hadv with rfl | rfl <;> by_cases hro : db.readOnly <;> simp [hro]

/-- The kernel maps 4096 bytes of an empty file at address 65536. -/
theorem unixMmap_example :
    unixMmap 4096 (.ok 65536 [])
      = .ok (65536, (List.range 4096).map (fun i => ([] : List Byte).getD i 0)) := by
  unfold unixMmap
  rw [if_neg (by decide)]
  rfl

/-- C5, as stated, fails: on a fresh handle a mapping of 4096 bytes that the
kernel grants, followed by an advisory that fails with `EINVAL`, makes `mmap`
return the error "madvise: EINVAL" and leaves `db.dataref` and `db.data` nil and
`db.datasz` 0: the new region is not recorded. -/
theorem mmap_advise_failure_drops_mapping :
    (mmap freshDB 4096 (.ok 65536 []) (some .EINVAL)).out = .ret (some (.madvise .EINVAL)) ∧
    (mmap freshDB 4096 (.ok 65536 []) (some .EINVAL)).db.dataref = none ∧
    (mmap freshDB 4096 (.ok 65536 []) (some .EINVAL)).db.data = none ∧
    (mmap freshDB 4096 (.ok 65536 []) (some .EINVAL)).db.datasz ≠ 4096 := by
  obtain ⟨h1, h2, h3, h4⟩ :=
    mmap_advise_failure freshDB 4096 (.ok 65536 []) 65536 _ .EINVAL unixMmap_example (by decide)
  refine ⟨h1, h2.trans rfl, h3.trans rfl, ?_⟩
  rw [h4]
  decide

/-- C5, amended: when the mapping call succeeds but the advisory fails with an
error other than `ENOSYS`, `mmap` returns the error "madvise: <error>" and does
not record the mapping: `db.dataref`, `db.data` and `db.datasz` keep the values
they had before the call. -/
theorem mmap_advise_error_leaves_fields (db : DB) (sz : Int) (kern : KernelMmap) (addr : Nat)
    (b : List Byte) (e : Errno) (hmap : unixMmap sz kern = .ok (addr, b)) (he : e ≠ .ENOSYS) :
    (mmap db sz kern (some e)).out = .ret (some (.madvise e)) ∧
    (mmap db sz kern (some e)).db.dataref = db.dataref ∧
    (mmap db sz kern (some e)).db.data = db.data ∧
    (mmap db sz kern (some e)).db.datasz = db.datasz :=
  mmap_advise_failure db sz kern addr b e hmap he

/-- C5, amended, witness: the example handle keeps its 4096-byte mapping when a
new one of 4096 bytes is granted and the advisory fails with `EINVAL`. -/
theorem mmap_advise_error_leaves_fields_witness :
    (mmap exampleDB 4096 (.ok 65536 []) (some .EINVAL)).out
      = .ret (some (.madvise .EINVAL)) ∧
    (mmap exampleDB 4096 (.ok 65536 []) (some .EINVAL)).db.datasz = exampleDB.datasz :=
  have h := mmap_advise_error_leaves_fields exampleDB 4096 (.ok 65536 []) 65536 _ .EINVAL
    unixMmap_example (by decide)
  ⟨h.1, h.2.2.2⟩

/-! ## Invariants of the mapping fields -/

theorem munmap_clears (db : DB) (res : Option Errno) :
    (munmap db res).db.dataref = none ∧
    ((munmap db res).db = db ∨
      ((munmap db res).db.data = none ∧ (munmap db res).db.datasz = 0)) ∧
    (munmap db res).db.filesz = db.filesz := by
  unfold munmap
  cases h : db.dataref <;> simp [h]

theorem step_mappingFieldsAgree (db : DB) (op : Op) (h : mappingFieldsAgree db) :
    mappingFieldsAgree (step db op) := by
  unfold mappingFieldsAgree at *
  cases op with
  | mmap sz kern adv =>
    obtain ⟨_, _, hc⟩ := mmap_cases db sz kern adv
    rcases hc with ⟨h1, h2, h3, _⟩ | ⟨hsz, ⟨x, xs, h1⟩, ⟨a, h2⟩, h3, _⟩
    · simp only [step, h1, h2, h3]; exact h
    · simp only [step, h1, h2, h3]
      have : sz ≠ 0 := by omega
      simp [this]
  | munmap res =>
    obtain ⟨h1, h2, _⟩ := munmap_clears db res
    rcases h2 with h2 | ⟨h2, h3⟩
    · simp only [step, h2]; exact h
    · simp only [step, h1, h2, h3]; simp
  | writeAt p off tr ms =>
    obtain ⟨_, h1, h2, h3⟩ := writeAt_fields db p off tr ms
    simp only [step, h1, h2, h3]
    exact h

theorem run_mappingFieldsAgree (db : DB) (ops : List Op) (h : mappingFieldsAgree db) :
    mappingFieldsAgree (run db ops) := by
  induction ops generalizing db with
  | nil => exact h
  | cons op ops ih => exact ih (step db op) (step_mappingFieldsAgree db op h)

/-- C6: in every state reached from an unmapped handle (`dataref` nil, `data`
nil, `datasz` 0) by any sequence of `mmap`, `munmap` and `writeAt` calls, whatever
their system calls return, `db.dataref` is nil exactly when `db.datasz` is 0,
exactly when `db.data` is nil; and `munmap` on a held mapping leaves all three
cleared, whether `unix.Munmap` returned an error or not. -/
theorem mapping_fields_transition_together (db0 : DB) (ops : List Op)
    (href : db0.dataref = none) (hdata : db0.data = none) (hsz : db0.datasz = 0) :
    mappingFieldsAgree (run db0 ops) ∧
    ∀ (db : DB) (res : Option Errno), db.dataref ≠ none →
      (munmap db res).db.dataref = none ∧ (munmap db res).db.data = none ∧
      (munmap db res).db.datasz = 0 ∧ (munmap db res).err = res.map .errno := by
  refine ⟨run_mappingFieldsAgree db0 ops ?_, fun db res hne => ?_⟩
  · simp [mappingFieldsAgree, href, hdata, hsz]
  · unfold munmap
    cases h : db.dataref with
    | none => exact absurd h hne
    | some b => simp

/-- C6, witness: a fresh handle is mapped, written to and unmapped with an
error from the kernel. -/
theorem mapping_fields_transition_together_witness :
    mappingFieldsAgree (run freshDB
      [.mmap 4096 (.ok 65536 []) none, .writeAt [7] 0 none none, .munmap (some .EINVAL)]) :=
  (mapping_fields_transition_together freshDB
    [.mmap 4096 (.ok 65536 []) none, .writeAt [7] 0 none none, .munmap (some .EINVAL)]
    rfl rfl rfl).1

/-- C7: with no mapping held `munmap` returns nil, issues no system call and
leaves the handle as it is; so in any state a second `munmap` right after a
first returns nil, issues no system call and leaves the handle as the first
call left it. -/
theorem munmap_idempotent (db : DB) (r1 r2 : Option Errno) :
    (db.dataref = none → munmap db r1 = { db := db, err := none, calls := [] }) ∧
    munmap (munmap db r1).db r2 = { db := (munmap db r1).db, err := none, calls := [] } := by
  have h : ∀ (d : DB) (r : Option Errno), d.dataref = none →
      munmap d r = { db := d, err := none, calls := [] } := by
    intro d r hd
    unfold munmap
    rw [hd]
  exact ⟨h db r1, h _ r2 (munmap_clears db r1).1⟩

/-- C7, witness: on a fresh handle `munmap` does nothing, and on the example
handle a second `munmap` does nothing after a first that failed. -/
theorem munmap_idempotent_witness :
    munmap freshDB (some .EINVAL) = { db := freshDB, err := none, calls := [] } ∧
    (munmap (munmap exampleDB (some .EINVAL)).db (some .EINVAL)).err = none :=
  have h1 := munmap_idempotent freshDB (some .EINVAL) none
  have h2 := munmap_idempotent exampleDB (some .EINVAL) (some .EINVAL)
  ⟨h1.1 rfl, by rw [h2.2]⟩

/-! ## Tracked file size and mapped size -/

theorem step_fileCoversMapping (db : DB) (op : Op) (h : fileCoversMapping db)
    (hop : ∀ sz kern adv, op = .mmap sz kern adv → sz ≤ db.filesz) :
    fileCoversMapping (step db op) := by
  unfold fileCoversMapping at *
  cases op with
  | mmap sz kern adv =>
    obtain ⟨hf, _, hc⟩ := mmap_cases db sz kern adv
    rcases hc with ⟨h1, _, h3, _⟩ | ⟨_, _, _, h3, _⟩
    · simp only [step, h1, h3, hf]; exact h
    · simp only [step, h3, hf]
      exact fun _ => hop sz kern adv rfl
  | munmap res =>
    obtain ⟨h1, _, _⟩ := munmap_clears db res
    intro hne
    exact absurd h1 hne
  | writeAt p off tr ms =>
    obtain ⟨_, h1, _, h3⟩ := writeAt_fields db p off tr ms
    have hm := writeAt_filesz_mono db p off tr ms
    simp only [step, h1]
    intro hne
    have := h (fun hn => hne (h3.mpr hn))
    omega

theorem run_fileCoversMapping (db : DB) (ops : List Op) (h : fileCoversMapping db)
    (hops : mapsWithinFile db ops = true) : fileCoversMapping (run db ops) := by
  induction ops generalizing db with
  | nil => exact h
  | cons op ops ih =>
    simp only [mapsWithinFile, Bool.and_eq_true] at hops
    refine ih (step db op) (step_fileCoversMapping db op h ?_) hops.2
    intro sz kern adv hop
    subst hop
    simpa using hops.1

/-- The kernel maps 8192 bytes of a 4096-byte file at address 65536. -/
theorem unixMmap_remap_example :
    unixMmap 8192 (.ok 65536 (List.replicate 4096 0))
      = .ok (65536, (List.range 8192).map (fun i => (List.replicate 4096 (0 : Byte)).getD i 0)) := by
  unfold unixMmap
  rw [if_neg (by decide)]
  rfl

/-- C8, as stated, fails: the example handle (a 4096-byte file, mapped whole)
is unmapped and mapped again at 8192 bytes; both calls succeed, a mapping is
held afterwards, and the tracked file size 4096 is below the mapped size
8192. -/
theorem remap_exceeds_tracked_file_size :
    (run exampleDB [.munmap none, .mmap 8192 (.ok 65536 (List.replicate 4096 0)) none]).dataref
      ≠ none ∧
    (run exampleDB [.munmap none, .mmap 8192 (.ok 65536 (List.replicate 4096 0)) none]).filesz
      = 4096 ∧
    (run exampleDB [.munmap none, .mmap 8192 (.ok 65536 (List.replicate 4096 0)) none]).datasz
      = 8192 := by
  obtain ⟨_, h2, _, h4, h5⟩ := mmap_success (munmap exampleDB none).db 8192
    (.ok 65536 (List.replicate 4096 0)) 65536 _ none unixMmap_remap_example (Or.inl rfl)
  have hrun : run exampleDB [.munmap none, .mmap 8192 (.ok 65536 (List.replicate 4096 0)) none]
      = (mmap (munmap exampleDB none).db 8192 (.ok 65536 (List.replicate 4096 0)) none).db := rfl
  rw [hrun, h2, h4, h5]
  exact ⟨Option.some_ne_none _, (munmap_clears exampleDB none).2.2.trans rfl, rfl⟩

/-- C8, amended: from a state in which the tracked file size covers the mapped
size whenever a mapping is held, every sequence of `mmap`, `munmap` and `writeAt`
calls in which each `mmap` asks for at most the file size tracked at the time of
the call leads to a state in which, whenever a mapping is held,
`db.filesz ≥ db.datasz`. -/
theorem filesz_covers_datasz (db0 : DB) (ops : List Op)
    (h0 : db0.dataref ≠ none → db0.datasz ≤ db0.filesz)
    (hops : mapsWithinFile db0 ops = true) :
    (run db0 ops).dataref ≠ none → (run db0 ops).datasz ≤ (run db0 ops).filesz :=
  run_fileCoversMapping db0 ops h0 hops

/-- C8, amended, witness: a handle that maps the first 8 bytes of its file is
written to, unmapped and mapped again at the size of the file. -/
theorem filesz_covers_datasz_witness :
    fileCoversMapping (run shortMapDB
      [.writeAt [7] 0 none none, .munmap none, .mmap 4096 (.ok 65536 []) none]) :=
  filesz_covers_datasz shortMapDB
    [.writeAt [7] 0 none none, .munmap none, .mmap 4096 (.ok 65536 []) none]
    (fun _ => by decide) (by decide)

/-! ## flock -/

/-- One round of the loop that neither returns nor times out. -/
theorem flockLoop_retry (env : LockEnv) (fd how : Nat) (timeout retry t : Int)
    (fuel i : Nat) (now : Int) (calls : List Syscall)
    (hblock : env.attempt i = some .EWOULDBLOCK)
    (hlive : ¬ (timeout ≠ 0 ∧ timeSub (now + env.attemptDur i) t > sub64 timeout retry)) :
    flockLoop env fd how timeout retry t (fuel + 1) i now calls
      = flockLoop env fd how timeout retry t fuel (i + 1)
          (now + env.attemptDur i + env.sleepDur i)
          (calls ++ [.Flock fd how, .Sleep retry]) := by
  rw [flockLoop]
  simp only [hblock, ne_eq, not_true_eq_false, if_false]
  rw [if_neg hlive]
  simp

/-- The round in which the check of line 38 fires. -/
theorem flockLoop_timeout (env : LockEnv) (fd how : Nat) (timeout retry t : Int)
    (fuel i : Nat) (now : Int) (calls : List Syscall)
    (hblock : env.attempt i = some .EWOULDBLOCK)
    (hfire : timeout ≠ 0 ∧ timeSub (now + env.attemptDur i) t > sub64 timeout retry) :
    flockLoop env fd how timeout retry t (fuel + 1) i now calls
      = some { err := some .ErrTimeout, calls := calls ++ [.Flock fd how],
               finish := now + env.attemptDur i } := by
  rw [flockLoop]
  simp only [hblock, ne_eq, not_true_eq_false, if_false]
  rw [if_pos hfire]

/-- The round in which the attempt does not report contention. -/
theorem flockLoop_decisive (env : LockEnv) (fd how : Nat) (timeout retry t : Int)
    (fuel i : Nat) (now : Int) (calls : List Syscall)
    (hdec : env.attempt i ≠ some .EWOULDBLOCK) :
    flockLoop env fd how timeout retry t (fuel + 1) i now calls
      = some { err := (env.attempt i).map .errno, calls := calls ++ [.Flock fd how],
               finish := now + env.attemptDur i } := by
  rw [flockLoop]
  cases h : env.attempt i with
  | none => simp
  | some e =>
    have : e ≠ .EWOULDBLOCK := fun he => hdec (by rw [h, he])
    simp [this]

/-- After `n` rounds that neither return nor time out the loop is at the
`n`-th attempt. -/
theorem flockLoop_rounds (env : LockEnv) (fd how : Nat) (timeout retry t start : Int) (n : Nat)
    (hblock : ∀ j, j < n → env.attempt j = some .EWOULDBLOCK)
    (hlive : ∀ j, j < n →
      ¬ (timeout ≠ 0 ∧ timeSub (clockAfterAttempt env start j) t > sub64 timeout retry))
    (fuel : Nat) :
    flockLoop env fd how timeout retry t (fuel + n) 0 start []
      = flockLoop env fd how timeout retry t fuel n (clockBeforeAttempt env start n)
          (retryPrefix fd how retry n) := by
  induction n generalizing fuel with
  | zero => rfl
  | succ n ih =>
    have h1 := ih (fun j hj => hblock j (by omega)) (fun j hj => hlive j (by omega)) (fuel + 1)
    have h2 : fuel + (n + 1) = fuel + 1 + n := by omega
    rw [h2, h1]
    exact flockLoop_retry env fd how timeout retry t fuel n _ _ (hblock n (by omega))
      (hlive n (by omega))

/-- The loop never returns the contention errno itself. -/
theorem flockLoop_err (env : LockEnv) (fd how : Nat) (timeout retry t : Int)
    (fuel i : Nat) (now : Int) (calls : List Syscall) (r : FlockResult)
    (h : flockLoop env fd how timeout retry t fuel i now calls = some r) :
    r.err ≠ some (.errno .EWOULDBLOCK) := by
  induction fuel generalizing i now calls with
  | zero => simp [flockLoop] at h
  | succ fuel ih =>
    by_cases hdec : env.attempt i = some .EWOULDBLOCK
    · by_cases hfire : timeout ≠ 0 ∧ timeSub (now + env.attemptDur i) t > sub64 timeout retry
      · rw [flockLoop_timeout env fd how timeout retry t fuel i now calls hdec hfire] at h
        cases h
        simp
      · rw [flockLoop_retry env fd how timeout retry t fuel i now calls hdec hfire] at h
        exact ih _ _ _ h
    · rw [flockLoop_decisive env fd how timeout retry t fuel i now calls hdec] at h
      cases h
      cases he : env.attempt i with
      | none => simp
      | some e =>
        have : e ≠ .EWOULDBLOCK := fun h' => hdec (by rw [he, h'])
        simp [this]

/-- C10: for every sequence of outcomes of the `syscall.Flock` attempts, every
timeout and every clock, if the attempts before the `n`-th report contention,
the check of line 38 does not fire after any of them and the `n`-th attempt does
not report contention, then `flock` returns at the `n`-th attempt: it has issued
`n` attempts each followed by a sleep and then that one attempt, and it returns
nil if the attempt succeeded and exactly its errno otherwise.  And whatever the
outcomes, `flock` never returns the contention errno `EWOULDBLOCK` itself. -/
theorem flock_returns_first_decisive_outcome (db : DB) (exclusive : Bool)
    (timeout retry : Int) (env : LockEnv) (start : Int) (n fuel : Nat)
    (hblock : ∀ j, j < n → env.attempt j = some .EWOULDBLOCK)
    (hlive : ∀ j, j < n → ¬ timedOutAfter env timeout retry start j)
    (hdec : env.attempt n ≠ some .EWOULDBLOCK) (hfuel : n < fuel) :
    flock db exclusive timeout retry env start fuel
      = some { err := (env.attempt n).map .errno,
               calls := retryCalls db.file.fd (lockFlag exclusive) retry n,
               finish := clockAfterAttempt env start n } ∧
    ∀ (fuel' : Nat) (r : FlockResult),
      flock db exclusive timeout retry env start fuel' = some r →
        r.err ≠ some (.errno .EWOULDBLOCK) := by
  refine ⟨?_, fun fuel' r h => flockLoop_err _ _ _ _ _ _ _ _ _ _ r h⟩
  obtain ⟨m, rfl⟩ : ∃ m, fuel = m + 1 + n := ⟨fuel - 1 - n, by omega⟩
  unfold flock
  rw [flockLoop_rounds env _ _ timeout retry _ start n hblock ?_ (m + 1)]
  · rw [flockLoop_decisive _ _ _ _ _ _ _ _ _ _ hdec]
    rfl
  · intro j hj hfire
    apply hlive j hj
    refine ⟨hfire.1, ?_⟩
    have := hfire.2
    simp only [hfire.1, ne_eq, not_false_eq_true, if_true] at this
    exact this

/-- C10, witness: two contended attempts, then the lock is granted, well within
a timeout of one second with a retry interval of 50 ms. -/
theorem flock_returns_first_decisive_outcome_witness :
    flock freshDB true 1000000000 50000000 (releasedEnv 2 none 50000000) 0 3
      = some { err := none, calls := retryCalls 3 (lockFlag true) 50000000 2,
               finish := 100000000 } :=
  (flock_returns_first_decisive_outcome freshDB true 1000000000 50000000
    (releasedEnv 2 none 50000000) 0 2 3 (by decide)
    (by intro j hj; interval_cases j <;> (unfold timedOutAfter; decide))
    (by decide) (by decide)).1

/-- On the clock of C9 the reading before the `j`-th attempt is `j` retry
intervals after the start. -/
theorem clockBeforeAttempt_contended (env : LockEnv) (start retry : Int)
    (hdur : ∀ i, env.attemptDur i = 0) (hsl : ∀ i, env.sleepDur i = retry) (j : Nat) :
    clockBeforeAttempt env start j = start + j * retry := by
  induction j with
  | zero => simp [clockBeforeAttempt]
  | succ j ih =>
    rw [clockBeforeAttempt, ih, hdur, hsl]
    push_cast
    ring

/-- The number of sleeps before the check of line 38 fires on the clock of C9. -/
theorem timeout_round (T R : Int) (hR : 0 < R) :
    T - R < ((T / R).toNat : Int) * R ∧ ((T / R).toNat : Int) * R ≤ max T 0 ∧
    ∀ j : Nat, j < (T / R).toNat → (j : Int) * R ≤ T - R := by
  have h1 := Int.ediv_mul_le T (b := R) (by omega)
  have h2 := Int.lt_ediv_add_one_mul_self T hR
  have h2' : (T / R + 1) * R = T / R * R + R := by ring
  by_cases hneg : T < 0
  · have hq : T / R < 0 := Int.ediv_neg' hneg hR
    have hk : (T / R).toNat = 0 := by omega
    rw [hk]
    refine ⟨by simp; omega, by simp, fun j hj => by omega⟩
  · have hq : 0 ≤ T / R := Int.ediv_nonneg (by omega) (by omega)
    have hk : ((T / R).toNat : Int) = T / R := Int.toNat_of_nonneg hq
    rw [hk]
    refine ⟨by omega, by omega, fun j hj => ?_⟩
    have hj' : (j : Int) + 1 ≤ T / R := by omega
    have : ((j : Int) + 1) * R ≤ T / R * R := mul_le_mul_of_nonneg_right hj' (by omega)
    have h3 : ((j : Int) + 1) * R = j * R + R := by ring
    omega

/-- The elapsed time that line 38 reads after `x` nanoseconds. -/
theorem timeSub_elapsed (start x : Int) (h0 : 0 ≤ x) (h1 : x < 9223372036854775808) :
    timeSub (start + x) start = x := by
  unfold timeSub
  omega

/-- C9, as stated, fails: with a timeout of -100 ms, a retry interval of 50 ms
and a permanently contended lock `flock` returns `ErrTimeout` after its first
attempt, at elapsed time 0, which is not in `[T - 50 ms, T + 50 ms]`. -/
theorem negative_timeout_returns_at_once :
    (∀ fuel : Nat, 0 < fuel →
      flock freshDB true (-100000000) 50000000 (contendedEnv 50000000) 0 fuel
        = some { err := some .ErrTimeout, calls := [.Flock 3 (lockFlag true)], finish := 0 }) ∧
    ¬ ((0 : Int) - 0 ≤ -100000000 + 50000000) := by
  refine ⟨fun fuel hfuel => ?_, by decide⟩
  obtain ⟨m, rfl⟩ : ∃ m, fuel = m + 1 := ⟨fuel - 1, by omega⟩
  unfold flock
  rw [flockLoop_timeout _ _ _ _ _ _ _ _ _ _ rfl (by decide)]
  rfl

/-- C9, amended: for a retry interval `0 < R ≤ 2^62`, every non-zero timeout
`T ≥ -R`, a permanently contended lock and a clock on which attempts take no time
and each sleep lasts exactly `R`, `flock` returns `ErrTimeout`; it does so at the
first check after an attempt at which the elapsed time exceeds `T - R`, that is
after `k` sleeps for the least `k` with `k * R > T - R`, without a further attempt
or sleep; and the elapsed time at the return lies in `[T - R, T + R]`. -/
theorem flock_times_out_when_contended (db : DB) (exclusive : Bool) (T R : Int)
    (env : LockEnv) (start : Int) (hR : 0 < R) (hR2 : R ≤ 4611686018427387904)
    (hT0 : T ≠ 0) (hT : -R ≤ T) (hT2 : T < 9223372036854775808)
    (hatt : ∀ i, env.attempt i = some .EWOULDBLOCK) (hdur : ∀ i, env.attemptDur i = 0)
    (hsl : ∀ i, env.sleepDur i = R) :
    ∃ k : Nat, T - R < k * R ∧ (∀ j : Nat, j < k → ¬ (T - R < j * R)) ∧
      ∀ fuel : Nat, k < fuel → ∃ r : FlockResult,
        flock db exclusive T R env start fuel = some r ∧
        r.err = some .ErrTimeout ∧
        r.calls = retryCalls db.file.fd (lockFlag exclusive) R k ∧
        r.finish - start = k * R ∧
        T - R ≤ r.finish - start ∧ r.finish - start ≤ T + R := by
  obtain ⟨hk1, hk2, hk3⟩ := timeout_round T R hR
  have hsub : sub64 T R = T - R := by
    unfold sub64; exact wrap64_of_range _ (by omega) (by omega)
  have hclock : ∀ j : Nat, clockAfterAttempt env start j = start + j * R := by
    intro j
    rw [clockAfterAttempt, clockBeforeAttempt_contended env start R hdur hsl, hdur]
    ring
  have hnn : ∀ j : Nat, 0 ≤ (j : Int) * R := fun j =>
    mul_nonneg (Int.ofNat_nonneg j) (by omega)
  refine ⟨(T / R).toNat, hk1, fun j hj => by have := hk3 j hj; omega, fun fuel hfuel => ?_⟩
  obtain ⟨m, rfl⟩ : ∃ m, fuel = m + 1 + (T / R).toNat := ⟨fuel - 1 - (T / R).toNat, by omega⟩
  have hlive : ∀ j, j < (T / R).toNat →
      ¬ (T ≠ 0 ∧ timeSub (clockAfterAttempt env start j) start > sub64 T R) := by
    intro j hj hfire
    have h1 := hk3 j hj
    have h2 := hfire.2
    rw [hclock, timeSub_elapsed start _ (hnn j) (by omega), hsub] at h2
    omega
  have hfire : T ≠ 0 ∧
      timeSub (clockBeforeAttempt env start (T / R).toNat + env.attemptDur (T / R).toNat) start
        > sub64 T R := by
    refine ⟨hT0, ?_⟩
    have := hclock (T / R).toNat
    rw [clockAfterAttempt] at this
    rw [this, timeSub_elapsed start _ (hnn _) (by omega), hsub]
    omega
  unfold flock
  simp only [hT0, ne_eq, not_false_eq_true, if_true]
  rw [flockLoop_rounds env _ _ T R start start _ (fun j _ => hatt j) hlive (m + 1),
    flockLoop_timeout _ _ _ _ _ _ _ _ _ _ (hatt _) hfire]
  have hfin := hclock (T / R).toNat
  rw [clockAfterAttempt] at hfin
  refine ⟨_, rfl, rfl, rfl, ?_, ?_, ?_⟩ <;> simp only [hfin] <;> omega

/-- C9, amended, witness: a timeout of 120 ms with a retry interval of 50 ms on a
permanently contended lock: `ErrTimeout` after two sleeps, 100 ms after the
start. -/
theorem flock_times_out_when_contended_witness :
    ∃ k : Nat, (120000000 : Int) - 50000000 < k * 50000000 ∧
      (∀ j : Nat, j < k → ¬ ((120000000 : Int) - 50000000 < j * 50000000)) ∧
      ∀ fuel : Nat, k < fuel → ∃ r : FlockResult,
        flock freshDB true 120000000 50000000 (contendedEnv 50000000) 0 fuel = some r ∧
        r.err = some .ErrTimeout ∧
        r.calls = retryCalls freshDB.file.fd (lockFlag true) 50000000 k ∧
        r.finish - 0 = k * 50000000 ∧
        (120000000 : Int) - 50000000 ≤ r.finish - 0 ∧ r.finish - 0 ≤ 120000000 + 50000000 :=
  flock_times_out_when_contended freshDB true 120000000 50000000 (contendedEnv 50000000) 0
    (by decide) (by decide) (by decide) (by decide) (by decide)
    (fun _ => rfl) (fun _ => rfl) (fun _ => rfl)

end Bbolt
